import Mathlib

/-!
Verification of the core simulation engine of an event-driven backtester:
order lifecycle state machine, matching engine, position accounting,
account balance updates, trailing stops, and the pub/sub message bus.

Exact decimal values of the implementation are modelled as rational numbers.
-/

set_option linter.unusedVariables false

namespace Backtest

/-- Order side, from core/enums.py (OrderSide). -/
inductive OrderSide where
  | buy
  | sell
  deriving DecidableEq, Repr

/-- Order status, from core/enums.py (OrderStatus). -/
inductive OrderStatus where
  | initialized
  | denied
  | submitted
  | accepted
  | rejected
  | canceled
  | expired
  | triggered
  | pendingUpdate
  | pendingCancel
  | partiallyFilled
  | filled
  deriving DecidableEq, Repr

/-- Order type, from core/enums.py (OrderType). -/
inductive OrderType where
  | market
  | limit
  | stopMarket
  | stopLimit
  | marketIfTouched
  | limitIfTouched
  | trailingStopMarket
  | trailingStopLimit
  deriving DecidableEq, Repr

/-- Time in force, from core/enums.py (TimeInForce). -/
inductive TimeInForce where
  | gtc
  | ioc
  | fok
  | gtd
  | day
  | atTheOpen
  | atTheClose
  deriving DecidableEq, Repr

/-- Trailing offset interpretation, from core/enums.py (TrailingOffsetType). -/
inductive TrailingOffsetType where
  | price
  | basisPoints
  | ticks
  | pips
  deriving DecidableEq, Repr

/-- Valid FSM transitions, from core/enums.py ORDER_STATUS_TRANSITIONS.
Statuses absent from the dict (terminal ones) map to the empty list,
mirroring the dict lookup with an empty-set default in Order. -/
def ORDER_STATUS_TRANSITIONS : OrderStatus → List OrderStatus
  | .initialized => [.denied, .submitted]
  | .submitted => [.accepted, .rejected, .canceled]
  | .accepted =>
      [.canceled, .expired, .triggered, .pendingUpdate, .pendingCancel,
       .partiallyFilled, .filled]
  | .triggered =>
      [.canceled, .expired, .pendingUpdate, .pendingCancel,
       .partiallyFilled, .filled]
  | .pendingUpdate =>
      [.accepted, .canceled, .expired, .triggered, .partiallyFilled, .filled]
  | .pendingCancel =>
      [.canceled, .accepted, .partiallyFilled, .filled]
  | .partiallyFilled =>
      [.canceled, .expired, .pendingUpdate, .pendingCancel,
       .partiallyFilled, .filled]
  | _ => []

/-- The transition table as written in section 4.3 of the specification,
stated independently for comparison with the code table. -/
def specSection43Transitions : OrderStatus → List OrderStatus
  | .initialized => [.denied, .submitted]
  | .submitted => [.accepted, .rejected, .canceled]
  | .accepted =>
      [.canceled, .expired, .triggered, .pendingUpdate, .pendingCancel,
       .partiallyFilled, .filled]
  | .triggered =>
      [.canceled, .expired, .pendingUpdate, .pendingCancel,
       .partiallyFilled, .filled]
  | .pendingUpdate =>
      [.accepted, .canceled, .expired, .triggered, .partiallyFilled, .filled]
  | .pendingCancel =>
      [.canceled, .accepted, .partiallyFilled, .filled]
  | .partiallyFilled =>
      [.canceled, .expired, .pendingUpdate, .pendingCancel,
       .partiallyFilled, .filled]
  | _ => []

/-- Dynamic state of an order, the fields of Order in model/orders/base.py
that event application reads and writes. -/
structure OrderState where
  quantity : ℚ
  filledQty : ℚ
  leavesQty : ℚ
  avgPx : ℚ
  status : OrderStatus
  deriving DecidableEq, Repr

/-- Order events, from core/events.py, carrying the fields Order.apply reads. -/
inductive OrderEvent where
  | initializedEv
  | deniedEv
  | submittedEv
  | acceptedEv
  | rejectedEv
  | canceledEv
  | expiredEv
  | triggeredEv
  | pendingUpdateEv
  | pendingCancelEv
  | updatedEv (quantity : Option ℚ)
  | filledEv (lastQty lastPx : ℚ)
  deriving DecidableEq, Repr

/-- The status an event asks the FSM to move to: the EVENT_TO_STATUS map of
model/orders/base.py, with the special targets of OrderUpdated (Accepted) and
OrderFilled (Filled when nothing is left, else PartiallyFilled). -/
def eventTarget (s : OrderState) : OrderEvent → OrderStatus
  | .initializedEv => .initialized
  | .deniedEv => .denied
  | .submittedEv => .submitted
  | .acceptedEv => .accepted
  | .rejectedEv => .rejected
  | .canceledEv => .canceled
  | .expiredEv => .expired
  | .triggeredEv => .triggered
  | .pendingUpdateEv => .pendingUpdate
  | .pendingCancelEv => .pendingCancel
  | .updatedEv _ => .accepted
  | .filledEv lastQty _ =>
      if max 0 (s.quantity - (s.filledQty + lastQty)) = 0 then .filled
      else .partiallyFilled

/-- Order.apply from model/orders/base.py. Returns the resulting state and a
flag that is true when the transition check raised. Field mutations made
before the transition check persist even when the check raises, exactly as in
the source, where a RuntimeError escapes after the assignments have run. -/
def applyEvent (s : OrderState) (e : OrderEvent) : OrderState × Bool :=
  match e with
  | .filledEv lastQty lastPx =>
      let newFilled := s.filledQty + lastQty
      let newAvg :=
        if 0 < newFilled then (s.avgPx * s.filledQty + lastPx * lastQty) / newFilled
        else s.avgPx
      let newLeaves := max 0 (s.quantity - newFilled)
      let s1 : OrderState :=
        { s with filledQty := newFilled, avgPx := newAvg, leavesQty := newLeaves }
      let tgt : OrderStatus := if newLeaves = 0 then .filled else .partiallyFilled
      if tgt ∈ ORDER_STATUS_TRANSITIONS s.status then ({ s1 with status := tgt }, false)
      else (s1, true)
  | .updatedEv q? =>
      let s1 : OrderState :=
        match q? with
        | some q => { s with quantity := q, leavesQty := max 0 (q - s.filledQty) }
        | none => s
      if OrderStatus.accepted ∈ ORDER_STATUS_TRANSITIONS s.status then
        ({ s1 with status := .accepted }, false)
      else (s1, true)
  | e =>
      let tgt := eventTarget s e
      if tgt ∈ ORDER_STATUS_TRANSITIONS s.status then ({ s with status := tgt }, false)
      else (s, true)

/-- Apply a sequence of events, keeping the state left behind by each one
whether or not its transition check raised (the execution engine catches the
RuntimeError and continues). -/
def applySeq (s : OrderState) (es : List OrderEvent) : OrderState :=
  es.foldl (fun acc e => (applyEvent acc e).1) s

/-- The claimed order invariant: the filled and leaves quantities sum to the
order quantity, and nothing negative is left. -/
def orderInv (s : OrderState) : Prop :=
  s.filledQty + s.leavesQty = s.quantity ∧ 0 ≤ s.leavesQty

instance (s : OrderState) : Decidable (orderInv s) := by
  unfold orderInv; infer_instance

/-- A fill clamped by the matching engine: positive and at most leaves_qty,
which is what OrderMatchingEngine fire-fill guarantees before Order.apply. -/
def fillClamped (s : OrderState) : OrderEvent → Bool
  | .filledEv lastQty _ => decide (0 ≤ lastQty ∧ lastQty ≤ s.leavesQty)
  | _ => true

/-- Every fill in the sequence is clamped at the state where it applies.
This is exactly the proviso in the claim taken over a whole sequence. -/
def clampedSeq (s : OrderState) : List OrderEvent → Bool
  | [] => true
  | e :: es => fillClamped s e && clampedSeq (applyEvent s e).1 es

/-- A well-behaved event relative to a state: fills are clamped and a quantity
update never sets the quantity below what is already filled. -/
def okEvent (s : OrderState) : OrderEvent → Bool
  | .filledEv lastQty _ => decide (0 ≤ lastQty ∧ lastQty ≤ s.leavesQty)
  | .updatedEv (some q) => decide (s.filledQty ≤ q)
  | _ => true

/-- Every event in the sequence is well-behaved at the state where it applies. -/
def okSeq (s : OrderState) : List OrderEvent → Bool
  | [] => true
  | e :: es => okEvent s e && okSeq (applyEvent s e).1 es

/-- A freshly initialized order of the given quantity, as built by the Order
constructor: nothing filled, everything left, status Initialized. -/
def initOrder (quantity : ℚ) : OrderState :=
  { quantity := quantity, filledQty := 0, leavesQty := quantity,
    avgPx := 0, status := .initialized }

/-- The L2 order book of model/data.py, kept as the level views its read
methods expose: bids best-first (descending price) and asks best-first
(ascending price), each level a pair of price and aggregated size. -/
structure OrderBook where
  bids : List (ℚ × ℚ)
  asks : List (ℚ × ℚ)
  deriving DecidableEq, Repr

/-- The bids method of OrderBook: the top levels best-first, default depth 10. -/
def OrderBook.bidsView (b : OrderBook) : List (ℚ × ℚ) := b.bids.take 10

/-- The asks method of OrderBook: the top levels best-first, default depth 10. -/
def OrderBook.asksView (b : OrderBook) : List (ℚ × ℚ) := b.asks.take 10

/-- best_bid_price of OrderBook. -/
def OrderBook.bestBidPrice (b : OrderBook) : Option ℚ := b.bids.head?.map Prod.fst

/-- best_ask_price of OrderBook. -/
def OrderBook.bestAskPrice (b : OrderBook) : Option ℚ := b.asks.head?.map Prod.fst

/-- Loop body of OrderBook.simulate_market_fill: walk the levels best-first,
each level filling up to its available size, stopping once nothing remains. -/
def simulateFillLevels (remaining : ℚ) : List (ℚ × ℚ) → List (ℚ × ℚ)
  | [] => []
  | (price, avail) :: rest =>
      if remaining ≤ 0 then []
      else
        let fillQty := min remaining avail
        (price, fillQty) :: simulateFillLevels (remaining - fillQty) rest

/-- OrderBook.simulate_market_fill from model/data.py: sweep the opposite side
of the book for a market order. Returns the (price, qty) fills; the book
itself is not modified. -/
def OrderBook.simulateMarketFill (b : OrderBook) (side : OrderSide)
    (quantity : ℚ) : List (ℚ × ℚ) :=
  simulateFillLevels quantity (if side = .buy then b.asksView else b.bidsView)

/-- OrderBook.update_from_bar from model/data.py: clear the book and install a
synthetic level on each side around the bar close. -/
def OrderBook.updateFromBar (close spreadPct : ℚ) : OrderBook :=
  let mid := close
  let halfSpread := mid * spreadPct / 2
  { bids := [(mid - halfSpread, 1000000000)],
    asks := [(mid + halfSpread, 1000000000)] }

/-- An order as the matching engine sees it: static fields plus the dynamic
OrderState of the base Order. -/
structure EOrder where
  oid : ℕ
  side : OrderSide
  otype : OrderType
  tif : TimeInForce
  price : Option ℚ
  triggerPrice : Option ℚ
  postOnly : Bool
  st : OrderState
  deriving DecidableEq, Repr

/-- Order.is_open from model/orders/base.py. -/
def EOrder.isOpen (o : EOrder) : Bool :=
  match o.st.status with
  | .accepted | .triggered | .pendingUpdate | .pendingCancel
  | .partiallyFilled => true
  | _ => false

/-- Order.is_closed from model/orders/base.py. -/
def EOrder.isClosed (o : EOrder) : Bool :=
  match o.st.status with
  | .denied | .rejected | .canceled | .expired | .filled => true
  | _ => false

/-- Order.is_filled from model/orders/base.py. -/
def EOrder.isFilled (o : EOrder) : Bool := o.st.status = .filled

/-- Events the matching engine emits through its callbacks (identifier and
commission details elided; the carried price and quantity are kept). -/
inductive EngineEvent where
  | fillEv (oid : ℕ) (px qty : ℚ)
  | cancelEv (oid : ℕ)
  | triggerEv (oid : ℕ)
  | expireEv (oid : ℕ)
  deriving DecidableEq, Repr

/-- OrderMatchingEngine fire-fill: skip closed or non-open orders, clamp the
fill to leaves_qty, drop empty fills, and otherwise apply an OrderFilled event
to the order and emit it. -/
def fireFill (o : EOrder) (fillPx fillQtyD : ℚ) : EOrder × List EngineEvent :=
  if o.isClosed = true ∨ o.isOpen = false then (o, [])
  else
    let fillQty := min fillQtyD o.st.leavesQty
    if fillQty = 0 then (o, [])
    else
      ({ o with st := (applyEvent o.st (.filledEv fillQty fillPx)).1 },
       [.fillEv o.oid fillPx fillQty])

/-- OrderMatchingEngine fire-cancel: apply OrderCanceled and emit it. -/
def fireCancel (o : EOrder) : EOrder × List EngineEvent :=
  ({ o with st := (applyEvent o.st .canceledEv).1 }, [.cancelEv o.oid])

/-- OrderMatchingEngine fire-triggered: apply OrderTriggered and emit it. -/
def fireTriggered (o : EOrder) : EOrder × List EngineEvent :=
  ({ o with st := (applyEvent o.st .triggeredEv).1 }, [.triggerEv o.oid])

/-- The stop trigger predicate of the matching engine: BUY triggers at or
above the trigger price, SELL at or below. -/
def isStopTriggered (o : EOrder) (price : Option ℚ) : Bool :=
  match price, o.triggerPrice with
  | some p, some tp => if o.side = .buy then decide (tp ≤ p) else decide (p ≤ tp)
  | _, _ => false

/-- The MIT trigger predicate of the matching engine: touch in the opposite
direction from a stop. The source does not restrict it by order type, and the
bar traversal's stop check consults it for every parked stop order. -/
def isMitTriggered (o : EOrder) (price : Option ℚ) : Bool :=
  match price, o.triggerPrice with
  | some p, some tp => if o.side = .buy then decide (p ≤ tp) else decide (tp ≤ p)
  | _, _ => false

/-- OrderMatchingEngine match-market from engine/matching_engine.py: sweep the
opposite side, honouring FOK and IOC. The slippage model is consulted per
level exactly where the source consults it; as in the source, its result is
bound and then never used, the fill being fired at the raw level price. The
source breaks out of the loop once nothing is left; with zero leaves every
later iteration is a no-op, so the break is modelled as a skip. -/
def matchMarket (book : OrderBook) (slip : ℚ → OrderSide → ℚ)
    (o : EOrder) : EOrder × List EngineEvent :=
  let fills := book.simulateMarketFill o.side o.st.leavesQty
  if o.tif = .fok ∧ (fills.map Prod.snd).sum < o.st.leavesQty then fireCancel o
  else
    let r := fills.foldl
      (fun (acc : EOrder × List EngineEvent) pf =>
        if acc.1.st.leavesQty = 0 then acc
        else
          let fillQty := min pf.2 acc.1.st.leavesQty
          let pxSlipped := slip pf.1 acc.1.side
          let r1 := fireFill acc.1 pf.1 fillQty
          (r1.1, acc.2 ++ r1.2))
      (o, [])
    if r.1.tif = .ioc ∧ r.1.st.leavesQty ≠ 0 then
      let r2 := fireCancel r.1
      (r2.1, r.2 ++ r2.2)
    else r

/-- Loop body of the fill-limit routine: walk the opposite-side levels,
breaking once the level price passes the limit or nothing is left; each fill
is at the level price bounded by the limit price in the trader's favour. -/
def fillLimitLevels (limitPx : ℚ) (isBuy : Bool) :
    EOrder → List (ℚ × ℚ) → EOrder × List EngineEvent
  | o, [] => (o, [])
  | o, (px, avail) :: rest =>
      if isBuy then
        if limitPx < px then (o, [])
        else if o.st.leavesQty = 0 then (o, [])
        else
          let fillQty := min avail o.st.leavesQty
          let fillPx := min px limitPx
          let r1 := fireFill o fillPx fillQty
          let r2 := fillLimitLevels limitPx isBuy r1.1 rest
          (r2.1, r1.2 ++ r2.2)
      else
        if px < limitPx then (o, [])
        else if o.st.leavesQty = 0 then (o, [])
        else
          let fillQty := min avail o.st.leavesQty
          let fillPx := max px limitPx
          let r1 := fireFill o fillPx fillQty
          let r2 := fillLimitLevels limitPx isBuy r1.1 rest
          (r2.1, r1.2 ++ r2.2)

/-- OrderMatchingEngine fill-limit from engine/matching_engine.py: attempt to
fill a limit order against the book; the book is read, never written. -/
def fillLimit (book : OrderBook) (lastPrice : Option ℚ)
    (o : EOrder) : EOrder × List EngineEvent :=
  match o.price with
  | none => (o, [])
  | some limitPx =>
      if lastPrice = none ∧ book.bestBidPrice = none then (o, [])
      else if o.side = .buy then fillLimitLevels limitPx true o book.asksView
      else fillLimitLevels limitPx false o book.bidsView

/-- The per-instrument state the matching engine keeps: the book, the resting,
stop and trailing queues, and the last observed price. -/
structure EngineState where
  book : OrderBook
  resting : List EOrder
  stops : List EOrder
  trailing : List EOrder
  lastPrice : Option ℚ
  deriving DecidableEq, Repr

/-- Whether a post-only limit order would fill immediately against the best
opposite price, from the matching engine. -/
def wouldFillImmediately (book : OrderBook) (o : EOrder) (limitPx : ℚ) : Bool :=
  if o.side = .buy then
    match book.bestAskPrice with
    | some ask => decide (ask ≤ limitPx)
    | none => false
  else
    match book.bestBidPrice with
    | some bid => decide (limitPx ≤ bid)
    | none => false

/-- OrderMatchingEngine match-limit-or-rest: post-only protection (the source
emits an OrderCanceled callback without applying it to the order), immediate
taker fill, then IOC or FOK cancel of any remainder, else rest in the book. -/
def matchLimitOrRest (st : EngineState) (o : EOrder) :
    EngineState × List EngineEvent :=
  match o.price with
  | none => (st, [])
  | some limitPx =>
      if o.postOnly = true ∧ wouldFillImmediately st.book o limitPx = true then
        (st, [.cancelEv o.oid])
      else
        let r := fillLimit st.book st.lastPrice o
        if r.1.st.leavesQty ≠ 0 ∧ r.1.isClosed = false then
          if r.1.tif = .ioc ∨ r.1.tif = .fok then
            let r2 := fireCancel r.1
            (st, r.2 ++ r2.2)
          else
            ({ st with resting := st.resting ++ [r.1] }, r.2)
        else (st, r.2)

/-- OrderMatchingEngine convert-stop-limit: the trigger fired, emit
OrderTriggered and rest the order as a limit at its price. -/
def convertStopLimit (st : EngineState) (o : EOrder) :
    EngineState × List EngineEvent :=
  let r := fireTriggered o
  ({ st with resting := st.resting ++ [r.1] }, r.2)

/-- OrderMatchingEngine process-order: route an admitted order by type, from
engine/matching_engine.py. -/
def processOrder (slip : ℚ → OrderSide → ℚ) (st : EngineState) (o : EOrder) :
    EngineState × List EngineEvent :=
  match o.otype with
  | .market => (st, (matchMarket st.book slip o).2)
  | .limit => matchLimitOrRest st o
  | .stopMarket =>
      if isStopTriggered o st.lastPrice = true then
        (st, (matchMarket st.book slip o).2)
      else ({ st with stops := st.stops ++ [o] }, [])
  | .stopLimit =>
      if isStopTriggered o st.lastPrice = true then convertStopLimit st o
      else ({ st with stops := st.stops ++ [o] }, [])
  | .trailingStopMarket => ({ st with trailing := st.trailing ++ [o] }, [])
  | .trailingStopLimit => ({ st with trailing := st.trailing ++ [o] }, [])
  | .marketIfTouched =>
      if isMitTriggered o st.lastPrice = true then
        (st, (matchMarket st.book slip o).2)
      else ({ st with stops := st.stops ++ [o] }, [])
  | .limitIfTouched =>
      if isMitTriggered o st.lastPrice = true then
        ({ st with resting := st.resting ++ [o] }, [])
      else ({ st with stops := st.stops ++ [o] }, [])

/-- Processing of one triggered stop order inside the bar traversal: market
style stops fire OrderTriggered and then fill at the conservative price (the
trigger price or the visited price, whichever is worse for the trader); limit
style stops convert to resting limits. Returns resting additions and events.
The none branch of the trigger price is unreachable, stop orders carrying a
trigger price by construction. -/
def fireTriggeredStop (price : ℚ) (acc : List EOrder × List EngineEvent)
    (o : EOrder) : List EOrder × List EngineEvent :=
  if o.otype = .stopMarket ∨ o.otype = .marketIfTouched then
    let r1 := fireTriggered o
    let fillPx :=
      match o.triggerPrice with
      | some tp => if o.side = .buy then max tp price else min tp price
      | none => price
    let r2 := fireFill r1.1 fillPx r1.1.st.leavesQty
    (acc.1, acc.2 ++ r1.2 ++ r2.2)
  else if o.otype = .stopLimit ∨ o.otype = .limitIfTouched then
    let r1 := fireTriggered o
    (acc.1 ++ [r1.1], acc.2 ++ r1.2)
  else (acc.1, acc.2)

/-- Step 3 body of the bar traversal: a resting limit order fills when the
visited bar price reaches its limit, at the better of limit and bar price. -/
def checkRestingAtPrice (price : ℚ) (isOpenVisit isHighVisit isLowVisit : Bool)
    (acc : List EOrder × List EngineEvent) (o : EOrder) :
    List EOrder × List EngineEvent :=
  if o.isOpen = false then acc
  else
    match o.price with
    | none => (acc.1 ++ [o], acc.2)
    | some limitPx =>
        let shouldFill :=
          (isHighVisit = true ∧ o.side = .sell ∧ limitPx ≤ price) ∨
          (isLowVisit = true ∧ o.side = .buy ∧ price ≤ limitPx) ∨
          (isOpenVisit = true ∧
            ((o.side = .buy ∧ price ≤ limitPx) ∨
             (o.side = .sell ∧ limitPx ≤ price)))
        if shouldFill then
          let fillPx := if o.side = .buy then min limitPx price else max limitPx price
          let r1 := fireFill o fillPx o.st.leavesQty
          if r1.1.isFilled = true ∨ r1.1.isClosed = true then (acc.1, acc.2 ++ r1.2)
          else (acc.1 ++ [r1.1], acc.2 ++ r1.2)
        else (acc.1 ++ [o], acc.2)

/-- OrderMatchingEngine process-at-price from engine/matching_engine.py: the
per-visit work of the bar traversal. Step 1 fills queued market orders at the
open, step 2 pops and fires triggered stops and MITs, step 3 fills resting
limit orders reached by the visited price. The book is never written. -/
def processAtPrice (st : EngineState) (price : ℚ)
    (isOpenVisit isHighVisit isLowVisit : Bool) :
    EngineState × List EngineEvent :=
  let step1 : List EOrder × List EngineEvent :=
    if isOpenVisit = true then
      st.resting.foldl
        (fun (acc : List EOrder × List EngineEvent) o =>
          if o.otype = .market ∧ o.isOpen = true then
            let r := fireFill o price o.st.leavesQty
            (acc.1, acc.2 ++ r.2)
          else (acc.1 ++ [o], acc.2))
        ([], [])
    else (st.resting, [])
  let keptStops := st.stops.filter
    (fun o => o.isOpen = true ∧
      ¬(isStopTriggered o (some price) = true ∨ isMitTriggered o (some price) = true))
  let triggered := st.stops.filter
    (fun o => o.isOpen = true ∧
      (isStopTriggered o (some price) = true ∨ isMitTriggered o (some price) = true))
  let step2 := triggered.foldl (fireTriggeredStop price) ([], [])
  let step3 := (step1.1 ++ step2.1).foldl
    (checkRestingAtPrice price isOpenVisit isHighVisit isLowVisit) ([], [])
  ({ st with resting := step3.1, stops := keptStops, lastPrice := some price },
   step1.2 ++ step2.2 ++ step3.2)

/-- Dynamic state of a trailing stop order, the fields update_trigger of
model/orders/trailing_stop.py reads and writes. -/
structure TrailingStop where
  side : OrderSide
  trailingOffset : ℚ
  trailingOffsetType : TrailingOffsetType
  triggerPrice : Option ℚ
  extremePrice : Option ℚ
  isActivated : Bool
  isTriggered : Bool
  deriving DecidableEq, Repr

/-- The compute-offset helper of TrailingStopMarketOrder: absolute price,
basis points of the market price, or ticks (treated as an absolute offset in
the source, which notes it lacks tick-size knowledge). -/
def computeOffset (o : TrailingStop) (marketPrice : ℚ) : ℚ :=
  match o.trailingOffsetType with
  | .price => o.trailingOffset
  | .basisPoints => marketPrice * o.trailingOffset / 10000
  | .ticks => o.trailingOffset
  | .pips => o.trailingOffset

/-- The activation block at the top of update_trigger: an order with an
activation trigger price activates when the market crosses it in the right
direction; one without activates immediately. -/
def activateStep (o : TrailingStop) (mp : ℚ) : TrailingStop :=
  if o.isActivated = true then o
  else
    match o.triggerPrice with
    | some t0 =>
        if (o.side = .sell ∧ t0 ≤ mp) ∨ (o.side = .buy ∧ mp ≤ t0) then
          { o with isActivated := true }
        else o
    | none => { o with isActivated := true }

/-- The SELL ratchet block of update_trigger: on a new high, move the extreme
up and raise the trigger to the new high minus the offset, but never lower it. -/
def sellRatchet (o : TrailingStop) (mp offset : ℚ) : TrailingStop :=
  if (match o.extremePrice with | none => true | some e => decide (e < mp)) = true
  then
    let newTrigger := mp - offset
    let oE := { o with extremePrice := some mp }
    match oE.triggerPrice with
    | none => { oE with triggerPrice := some newTrigger }
    | some t =>
        if t < newTrigger then { oE with triggerPrice := some newTrigger } else oE
  else o

/-- The BUY ratchet block of update_trigger: on a new low, move the extreme
down and lower the trigger to the new low plus the offset, but never raise it. -/
def buyRatchet (o : TrailingStop) (mp offset : ℚ) : TrailingStop :=
  if (match o.extremePrice with | none => true | some e => decide (mp < e)) = true
  then
    let newTrigger := mp + offset
    let oE := { o with extremePrice := some mp }
    match oE.triggerPrice with
    | none => { oE with triggerPrice := some newTrigger }
    | some t =>
        if newTrigger < t then { oE with triggerPrice := some newTrigger } else oE
  else o

/-- TrailingStopMarketOrder.update_trigger from model/orders/trailing_stop.py:
activate if due, ratchet the trigger with the market extreme, and report
whether the stop has now fired (SELL fires when the market is at or below the
trigger, BUY when at or above). -/
def updateTrigger (o0 : TrailingStop) (mp : ℚ) : TrailingStop × Bool :=
  let o1 := activateStep o0 mp
  if o1.isActivated = false then (o1, false)
  else
    let offset := computeOffset o1 mp
    if o1.side = .sell then
      let o2 := sellRatchet o1 mp offset
      match o2.triggerPrice with
      | some t => if mp ≤ t then ({ o2 with isTriggered := true }, true) else (o2, false)
      | none => (o2, false)
    else
      let o2 := buyRatchet o1 mp offset
      match o2.triggerPrice with
      | some t => if t ≤ mp then ({ o2 with isTriggered := true }, true) else (o2, false)
      | none => (o2, false)

/-- Apply a sequence of market prices through update_trigger, keeping the
order state, as the matching engine does on every quote, trade and bar close. -/
def updateTriggerSeq (o : TrailingStop) (ps : List ℚ) : TrailingStop :=
  ps.foldl (fun acc mp => (updateTrigger acc mp).1) o

/-- The trigger price and fired flag observed after each successive update. -/
def triggerTrace (o : TrailingStop) : List ℚ → List (Option ℚ × Bool)
  | [] => []
  | mp :: ps =>
      let r := updateTrigger o mp
      (r.1.triggerPrice, r.2) :: triggerTrace r.1 ps

/-- The fill price the matching engine uses when a trailing stop market order
fires: the trigger price, falling back to the market price (the or-expression
in update-trailing-stops of engine/matching_engine.py). -/
def trailingStopFillPx (o : TrailingStop) (marketPrice : ℚ) : ℚ :=
  match o.triggerPrice with
  | some t => t
  | none => marketPrice

/-- The S6 trailing stop: SELL, absolute offset 5, no activation price, so it
is activated immediately with no trigger yet. -/
def s6TrailingStop : TrailingStop :=
  { side := .sell, trailingOffset := 5, trailingOffsetType := .price,
    triggerPrice := none, extremePrice := none,
    isActivated := true, isTriggered := false }

/-- Total quantity of a list of (price, size) levels or fills. -/
def sumQty (l : List (ℚ × ℚ)) : ℚ := (l.map Prod.snd).sum

/-- Total fill quantity carried by a list of engine events. -/
def fillQtySum (evs : List EngineEvent) : ℚ :=
  (evs.map fun e => match e with | .fillEv _ _ q => q | _ => 0).sum

/-- Whether a list of engine events contains a cancel. -/
def hasCancel (evs : List EngineEvent) : Bool :=
  evs.any fun e => match e with | .cancelEv _ => true | _ => false

/-- The loop body of the market sweep in match-market. -/
def marketFillStep (slip : ℚ → OrderSide → ℚ)
    (acc : EOrder × List EngineEvent) (pf : ℚ × ℚ) : EOrder × List EngineEvent :=
  if acc.1.st.leavesQty = 0 then acc
  else
    let fillQty := min pf.2 acc.1.st.leavesQty
    let pxSlipped := slip pf.1 acc.1.side
    let r1 := fireFill acc.1 pf.1 fillQty
    (r1.1, acc.2 ++ r1.2)

/-- Deterministic slippage of a fixed number of ticks of the price increment:
the price adjustment FillModel.apply_slippage computes when its random draw
says slippage applies (venues/models.py). -/
def applySlippageTicks (priceIncrement : ℚ) (ticks : ℕ) (price : ℚ)
    (side : OrderSide) : ℚ :=
  if side = .buy then price + priceIncrement * ticks
  else price - priceIncrement * ticks

/-- A per-currency balance as Account.update_balance of venues/account.py
stores it: total and locked as given, free recomputed as the difference
clamped below at zero. -/
structure Balance where
  total : ℚ
  locked : ℚ
  free : ℚ
  deriving DecidableEq, Repr

/-- Account.update_balance from venues/account.py. -/
def updateBalance (total locked : ℚ) : Balance :=
  { total := total, locked := locked, free := max (total - locked) 0 }

/-- SimulatedExchange update-account-on-fill from venues/simulated_exchange.py:
a BUY reads the FREE balance, subtracts qty times price plus commission, and
stores the result clamped at zero as the new total; a SELL reads the FREE
balance and adds qty times price minus commission as the new total; the
locked amount is carried over unchanged in both cases. -/
def updateAccountOnFill (bal : Balance) (side : OrderSide)
    (qty px commission : ℚ) : Balance :=
  if side = .buy then
    let cost := qty * px + commission
    let newTotal := bal.free - cost
    updateBalance (max newTotal 0) bal.locked
  else
    let revenue := qty * px - commission
    let newTotal := bal.free + revenue
    updateBalance newTotal bal.locked

/-- The running totals of Position in model/position.py that fill application
reads and writes. -/
structure PositionState where
  signedQty : ℚ
  buyQty : ℚ
  sellQty : ℚ
  buyCost : ℚ
  sellCost : ℚ
  realizedPnl : ℚ
  commissions : ℚ
  multiplier : ℚ
  deriving DecidableEq, Repr

/-- Position.avg_px_open from model/position.py: the cumulative cost ratio of
the currently open side, zero when flat or when that side has no quantity. -/
def avgPxOpen (p : PositionState) : ℚ :=
  if 0 < p.signedQty then (if p.buyQty ≠ 0 then p.buyCost / p.buyQty else 0)
  else if p.signedQty < 0 then
    (if p.sellQty ≠ 0 then p.sellCost / p.sellQty else 0)
  else 0

/-- Position apply-fill from model/position.py: accumulate the commission;
when the fill opposes the current signed quantity, realize PnL on the closed
quantity against avg_px_open and subtract the commission from realized PnL;
then add the fill to the signed quantity and to the cumulative quantity and
cost of its own side. -/
def applyPositionFill (p : PositionState) (side : OrderSide)
    (qty px commission : ℚ) : PositionState :=
  let p0 := { p with commissions := p.commissions + commission }
  if side = .buy then
    let p1 :=
      if p0.signedQty < 0 then
        let closeQty := min qty (abs p0.signedQty)
        let realized := closeQty * (avgPxOpen p0 - px) * p0.multiplier
        { p0 with realizedPnl := p0.realizedPnl + realized - commission }
      else p0
    { p1 with signedQty := p1.signedQty + qty, buyQty := p1.buyQty + qty,
              buyCost := p1.buyCost + qty * px }
  else
    let p1 :=
      if 0 < p0.signedQty then
        let closeQty := min qty p0.signedQty
        let realized := closeQty * (px - avgPxOpen p0) * p0.multiplier
        { p0 with realizedPnl := p0.realizedPnl + realized - commission }
      else p0
    { p1 with signedQty := p1.signedQty - qty, sellQty := p1.sellQty + qty,
              sellCost := p1.sellCost + qty * px }

/-- A position with no fills yet: the state the Position constructor holds
just before it applies the opening fill. -/
def emptyPosition (multiplier : ℚ) : PositionState :=
  { signedQty := 0, buyQty := 0, sellQty := 0, buyCost := 0, sellCost := 0,
    realizedPnl := 0, commissions := 0, multiplier := multiplier }

/-- A bus subscription as MessageBus.publish sees it: the handler's identity
plus whether invoking the handler raises. -/
structure Sub where
  hid : ℕ
  throws : Bool
  deriving DecidableEq, Repr

/-- The dispatch loops of MessageBus.publish from core/msgbus.py, over the
handlers matching the topic flattened in dispatch order (exact matches first,
then prefix matches). Each handler is invoked in turn with no exception
guard, so the first raise propagates out of publish and the remaining
handlers are skipped. Returns the ids of the handlers invoked and whether an
exception escaped. -/
def publishRun : List Sub → List ℕ × Bool
  | [] => ([], false)
  | s :: rest =>
      if s.throws then ([s.hid], true)
      else
        let r := publishRun rest
        (s.hid :: r.1, r.2)

/-- The event loop of BacktestEngine.run from backtest/engine.py, dispatching
each event to the same subscribed handlers through publish: the loop body has
no exception guard, so an exception escaping publish aborts the run with the
remaining events unprocessed. Returns the events dispatched and whether the
run aborted. -/
def runLoop (subs : List Sub) : List ℕ → List ℕ × Bool
  | [] => ([], false)
  | e :: es =>
      if (publishRun subs).2 then ([e], true)
      else
        let r := runLoop subs es
        (e :: r.1, r.2)

/-- One event application preserves the quantity invariant when the event is
well behaved at the state where it applies. -/
theorem orderInv_applyEvent (s : OrderState) (e : OrderEvent)
    (hinv : orderInv s) (hok : okEvent s e = true) :
    orderInv (applyEvent s e).1 := by
  obtain ⟨hsum, hpos⟩ := hinv
  cases e with
  | filledEv lastQty lastPx =>
      simp only [okEvent, decide_eq_true_eq] at hok
      obtain ⟨hq0, hqle⟩ := hok
      have hmax : max 0 (s.quantity - (s.filledQty + lastQty))
          = s.quantity - (s.filledQty + lastQty) := by
        apply max_eq_right; linarith
      simp only [applyEvent, orderInv]
      split <;> split <;> refine ⟨?_, ?_⟩ <;> simp [hmax] <;> linarith
  | updatedEv q? =>
      cases q? with
      | none =>
          simp only [applyEvent, orderInv]
          split <;> exact ⟨hsum, hpos⟩
      | some q =>
          simp only [okEvent, decide_eq_true_eq] at hok
          have hmax : max 0 (q - s.filledQty) = q - s.filledQty := by
            apply max_eq_right; linarith
          simp only [applyEvent, orderInv]
          split <;> refine ⟨?_, ?_⟩ <;> simp [hmax] <;> linarith
  | initializedEv => simp only [applyEvent, orderInv]; split <;> exact ⟨hsum, hpos⟩
  | deniedEv => simp only [applyEvent, orderInv]; split <;> exact ⟨hsum, hpos⟩
  | submittedEv => simp only [applyEvent, orderInv]; split <;> exact ⟨hsum, hpos⟩
  | acceptedEv => simp only [applyEvent, orderInv]; split <;> exact ⟨hsum, hpos⟩
  | rejectedEv => simp only [applyEvent, orderInv]; split <;> exact ⟨hsum, hpos⟩
  | canceledEv => simp only [applyEvent, orderInv]; split <;> exact ⟨hsum, hpos⟩
  | expiredEv => simp only [applyEvent, orderInv]; split <;> exact ⟨hsum, hpos⟩
  | triggeredEv => simp only [applyEvent, orderInv]; split <;> exact ⟨hsum, hpos⟩
  | pendingUpdateEv => simp only [applyEvent, orderInv]; split <;> exact ⟨hsum, hpos⟩
  | pendingCancelEv => simp only [applyEvent, orderInv]; split <;> exact ⟨hsum, hpos⟩

/-- C1 (amended): filled_qty + leaves_qty = quantity holds after every event of
any sequence in which each fill is clamped to the current leaves_qty and each
quantity update keeps the quantity at or above the already filled quantity.
Stated for an arbitrary invariant-satisfying start state, so it covers the
state after every prefix of the sequence as well. -/
theorem order_qty_invariant (s : OrderState) (es : List OrderEvent)
    (hinv : orderInv s) (hok : okSeq s es = true) :
    orderInv (applySeq s es) := by
  induction es generalizing s with
  | nil => simpa [applySeq] using hinv
  | cons e es ih =>
      simp only [okSeq, Bool.and_eq_true] at hok
      have hstep := orderInv_applyEvent s e hinv hok.1
      simpa [applySeq] using ih _ hstep hok.2

/-- Witness for order_qty_invariant at a concrete order and event sequence. -/
theorem order_qty_invariant_witness :
    orderInv (initOrder 10)
    ∧ okSeq (initOrder 10)
        [.submittedEv, .acceptedEv, .filledEv 4 100, .filledEv 6 101] = true
    ∧ orderInv (applySeq (initOrder 10)
        [.submittedEv, .acceptedEv, .filledEv 4 100, .filledEv 6 101]) :=
  ⟨by norm_num [orderInv, initOrder],
   by norm_num [okSeq, okEvent, applyEvent, eventTarget, ORDER_STATUS_TRANSITIONS, initOrder],
   order_qty_invariant (initOrder 10)
     [.submittedEv, .acceptedEv, .filledEv 4 100, .filledEv 6 101]
     (by norm_num [orderInv, initOrder])
     (by norm_num [okSeq, okEvent, applyEvent, eventTarget, ORDER_STATUS_TRANSITIONS, initOrder])⟩

/-- C1 counterexample: an order of quantity 10 is submitted, accepted, filled
for 5 (a clamped fill), moved to PendingUpdate, and then updated to quantity 3.
Every transition is legal and every fill is clamped, yet afterwards
filled_qty = 5, leaves_qty = 0 and quantity = 3, so the claimed equation
filled_qty + leaves_qty = quantity fails. -/
theorem order_qty_invariant_cex :
    clampedSeq (initOrder 10)
      [.submittedEv, .acceptedEv, .filledEv 5 100, .pendingUpdateEv,
       .updatedEv (some 3)] = true
    ∧ (applySeq (initOrder 10)
        [.submittedEv, .acceptedEv, .filledEv 5 100, .pendingUpdateEv,
         .updatedEv (some 3)]).filledQty
      + (applySeq (initOrder 10)
        [.submittedEv, .acceptedEv, .filledEv 5 100, .pendingUpdateEv,
         .updatedEv (some 3)]).leavesQty
      ≠ (applySeq (initOrder 10)
        [.submittedEv, .acceptedEv, .filledEv 5 100, .pendingUpdateEv,
         .updatedEv (some 3)]).quantity := by
  constructor
  · norm_num [clampedSeq, fillClamped, applyEvent, eventTarget,
      ORDER_STATUS_TRANSITIONS, initOrder]
  · norm_num [applySeq, applyEvent, eventTarget, ORDER_STATUS_TRANSITIONS,
      initOrder]

theorem sumQty_nil : sumQty [] = 0 := rfl

theorem sumQty_cons (f : ℚ × ℚ) (l : List (ℚ × ℚ)) :
    sumQty (f :: l) = f.2 + sumQty l := by
  simp [sumQty]

theorem sumQty_nonneg (l : List (ℚ × ℚ)) (h : ∀ f ∈ l, 0 < f.2) :
    0 ≤ sumQty l := by
  induction l with
  | nil => simp [sumQty]
  | cons f l ih =>
      rw [sumQty_cons]
      have h1 := h f (by simp)
      have h2 := ih (fun g hg => h g (by simp [hg]))
      linarith

theorem sumQty_pos_empty (l : List (ℚ × ℚ)) (h : ∀ f ∈ l, 0 < f.2)
    (hs : sumQty l ≤ 0) : l = [] := by
  cases l with
  | nil => rfl
  | cons f l =>
      exfalso
      have h1 := h f (by simp)
      have h2 := sumQty_nonneg l (fun g hg => h g (by simp [hg]))
      rw [sumQty_cons] at hs
      linarith

/-- The simulated sweep gathers exactly the requested quantity or all the
available size, whichever is smaller. -/
theorem sumQty_simulateFillLevels (levels : List (ℚ × ℚ)) (q : ℚ)
    (hq : 0 ≤ q) (hl : ∀ f ∈ levels, 0 < f.2) :
    sumQty (simulateFillLevels q levels) = min q (sumQty levels) := by
  induction levels generalizing q with
  | nil => simp [simulateFillLevels, sumQty, min_eq_right hq]
  | cons f rest ih =>
      obtain ⟨p, a⟩ := f
      have ha : 0 < a := hl (p, a) (by simp)
      have hrest : ∀ g ∈ rest, 0 < g.2 := fun g hg => hl g (by simp [hg])
      have hrestsum := sumQty_nonneg rest hrest
      simp only [simulateFillLevels]
      split
      · rename_i hle
        have hq0 : q = 0 := le_antisymm hle hq
        subst hq0
        rw [sumQty_nil, sumQty_cons,
          min_eq_left (show (0:ℚ) ≤ a + sumQty rest from by linarith)]
      · rename_i hgt
        push_neg at hgt
        have hms : 0 ≤ q - min q a := by
          rcases le_total q a with h | h
          · rw [min_eq_left h]; linarith
          · rw [min_eq_right h]; linarith
        rw [sumQty_cons, sumQty_cons, ih (q - min q a) hms hrest]
        show min q a + min (q - min q a) (sumQty rest) = min q (a + sumQty rest)
        rcases le_total q a with h | h
        · rw [min_eq_left h,
            min_eq_left (show q ≤ a + sumQty rest from by linarith), sub_self,
            min_eq_left hrestsum, add_zero]
        · rw [min_eq_right h]
          rcases le_total (q - a) (sumQty rest) with h2 | h2
          · rw [min_eq_left h2,
              min_eq_left (show q ≤ a + sumQty rest from by linarith)]
            ring
          · rw [min_eq_right h2,
              min_eq_right (show a + sumQty rest ≤ q from by linarith)]

/-- Every fill the simulated sweep produces has positive quantity. -/
theorem simulateFillLevels_pos (levels : List (ℚ × ℚ)) (q : ℚ)
    (hl : ∀ f ∈ levels, 0 < f.2) :
    ∀ f ∈ simulateFillLevels q levels, 0 < f.2 := by
  induction levels generalizing q with
  | nil => simp [simulateFillLevels]
  | cons f rest ih =>
      obtain ⟨p, a⟩ := f
      have ha : 0 < a := hl (p, a) (by simp)
      have hrest : ∀ g ∈ rest, 0 < g.2 := fun g hg => hl g (by simp [hg])
      intro g hg
      simp only [simulateFillLevels] at hg
      split at hg
      · simp at hg
      · rename_i hgt
        push_neg at hgt
        rcases List.mem_cons.mp hg with h | h
        · subst h; simp; exact ⟨hgt, ha⟩
        · exact ih (q - min q a) hrest g h

/-- Behaviour of the market-sweep loop on a fill list whose quantities are
positive and total at most the order's leaves: every fill is emitted in full
and the leaves decrease by exactly the total. -/
theorem foldl_marketFillStep (slip : ℚ → OrderSide → ℚ)
    (fills : List (ℚ × ℚ)) (o : EOrder) (evs0 : List EngineEvent)
    (hpos : ∀ f ∈ fills, 0 < f.2)
    (hsum : sumQty fills ≤ o.st.leavesQty)
    (hst : o.st.status = .accepted ∨ o.st.status = .partiallyFilled)
    (hinv : orderInv o.st) :
    (fills.foldl (marketFillStep slip) (o, evs0)).2
      = evs0 ++ fills.map (fun pf => EngineEvent.fillEv o.oid pf.1 pf.2)
    ∧ (fills.foldl (marketFillStep slip) (o, evs0)).1.st.leavesQty
      = o.st.leavesQty - sumQty fills
    ∧ (fills.foldl (marketFillStep slip) (o, evs0)).1.oid = o.oid
    ∧ (fills.foldl (marketFillStep slip) (o, evs0)).1.tif = o.tif := by
  induction fills generalizing o evs0 with
  | nil => simp [sumQty]
  | cons f rest ih =>
      obtain ⟨p, q⟩ := f
      have hq : 0 < q := hpos (p, q) (by simp)
      have hrest : ∀ g ∈ rest, 0 < g.2 := fun g hg => hpos g (by simp [hg])
      have hrestsum := sumQty_nonneg rest hrest
      rw [sumQty_cons] at hsum
      have hqle : q ≤ o.st.leavesQty := by linarith
      have hlv : o.st.leavesQty ≠ 0 := by
        intro h0; rw [h0] at hqle; linarith
      obtain ⟨hieq, hipos⟩ := hinv
      -- One step of the fold
      have hopen : o.isOpen = true := by
        rcases hst with h | h <;> simp [EOrder.isOpen, h]
      have hclosed : o.isClosed = false := by
        rcases hst with h | h <;> simp [EOrder.isClosed, h]
      have hmin : min (min q o.st.leavesQty) o.st.leavesQty = q := by
        rw [min_eq_left hqle, min_eq_left hqle]
      have hmax : max 0 (o.st.quantity - (o.st.filledQty + q))
          = o.st.leavesQty - q := by
        rw [max_eq_right (by linarith)]; linarith
      have hmem : (if o.st.leavesQty - q = 0 then OrderStatus.filled
            else OrderStatus.partiallyFilled)
          ∈ ORDER_STATUS_TRANSITIONS o.st.status := by
        rcases hst with h | h <;> rw [h] <;> split <;>
          simp [ORDER_STATUS_TRANSITIONS]
      have happly :
          (applyEvent o.st (.filledEv q p)).1.leavesQty = o.st.leavesQty - q
          ∧ ((applyEvent o.st (.filledEv q p)).1.status = .partiallyFilled
             ∨ (applyEvent o.st (.filledEv q p)).1.status = .filled)
          ∧ (applyEvent o.st (.filledEv q p)).1.filledQty
              + (applyEvent o.st (.filledEv q p)).1.leavesQty
             = (applyEvent o.st (.filledEv q p)).1.quantity
          ∧ 0 ≤ (applyEvent o.st (.filledEv q p)).1.leavesQty := by
        simp only [applyEvent, hmax]
        rw [if_pos hmem]
        refine ⟨rfl, ?_, by dsimp only; linarith, by dsimp only; linarith⟩
        dsimp only
        split
        · exact Or.inr rfl
        · exact Or.inl rfl
      have hstep : marketFillStep slip (o, evs0) (p, q)
          = ({ o with st := (applyEvent o.st (.filledEv q p)).1 },
             evs0 ++ [EngineEvent.fillEv o.oid p q]) := by
        have hq0 : ¬ (min (min q o.st.leavesQty) o.st.leavesQty = 0) := by
          rw [hmin]; intro h; rw [h] at hq; exact absurd hq (by simp)
        simp only [marketFillStep, fireFill, hopen, hclosed]
        rw [if_neg hlv, if_neg (by simp), if_neg hq0]
        rw [hmin]
      by_cases hrestnil : rest = []
      · subst hrestnil
        have hfold1 : List.foldl (marketFillStep slip) (o, evs0) [(p, q)]
            = ({ o with st := (applyEvent o.st (.filledEv q p)).1 },
               evs0 ++ [EngineEvent.fillEv o.oid p q]) := by
          rw [List.foldl_cons, hstep, List.foldl_nil]
        rw [hfold1]
        refine ⟨by simp, ?_, rfl, rfl⟩
        show (applyEvent o.st (.filledEv q p)).1.leavesQty = _
        rw [happly.1, sumQty_cons, sumQty_nil]
        ring
      · -- leaves after the first fill stay positive, status partiallyFilled
        have hrestpos : 0 < sumQty rest := by
          rcases lt_or_le 0 (sumQty rest) with h | h
          · exact h
          · exact absurd (sumQty_pos_empty rest hrest h) hrestnil
        have hleft : 0 < o.st.leavesQty - q := by linarith
        set o1 : EOrder := { o with st := (applyEvent o.st (.filledEv q p)).1 } with ho1
        have hstatus : (applyEvent o.st (.filledEv q p)).1.status
            = (if o.st.leavesQty - q = 0 then OrderStatus.filled
               else .partiallyFilled) := by
          simp only [applyEvent, hmax]
          rw [if_pos hmem]
        have ho1st : o1.st.status = .accepted ∨ o1.st.status = .partiallyFilled := by
          right
          show (applyEvent o.st (.filledEv q p)).1.status = .partiallyFilled
          rw [hstatus, if_neg]
          intro h
          rw [h] at hleft
          exact absurd hleft (by simp)
        have ho1inv : orderInv o1.st := ⟨happly.2.2.1, happly.2.2.2⟩
        have ho1leaves : o1.st.leavesQty = o.st.leavesQty - q := happly.1
        have ihres := ih o1 (evs0 ++ [EngineEvent.fillEv o.oid p q]) hrest
          (by rw [ho1leaves]; linarith) ho1st ho1inv
        simp only [List.foldl_cons, hstep]
        refine ⟨?_, ?_, ?_, ?_⟩
        · rw [ihres.1]
          simp [ho1]
        · rw [ihres.2.1, ho1leaves, sumQty_cons]; ring
        · rw [ihres.2.2.1]
        · rw [ihres.2.2.2]

/-- C4: a FOK market order against a book whose swept opposite-side levels
total less than the order's leaves_qty emits no fill and exactly one Canceled
event; when the swept total suffices, the order fills completely, the emitted
fill quantities summing to leaves_qty with nothing left and no cancel. -/
theorem fok_market_order (book : OrderBook) (slip : ℚ → OrderSide → ℚ)
    (o : EOrder)
    (hfok : o.tif = .fok)
    (hacc : o.st.status = .accepted)
    (hinv : orderInv o.st)
    (hpos : 0 < o.st.leavesQty)
    (hlv : ∀ f ∈ (if o.side = .buy then book.asksView else book.bidsView), 0 < f.2) :
    (sumQty (if o.side = .buy then book.asksView else book.bidsView) < o.st.leavesQty →
      (matchMarket book slip o).2 = [.cancelEv o.oid])
    ∧ (o.st.leavesQty ≤ sumQty (if o.side = .buy then book.asksView else book.bidsView) →
      fillQtySum (matchMarket book slip o).2 = o.st.leavesQty
      ∧ (matchMarket book slip o).1.st.leavesQty = 0
      ∧ hasCancel (matchMarket book slip o).2 = false) := by
  set swept := if o.side = .buy then book.asksView else book.bidsView with hswept
  have hfills : book.simulateMarketFill o.side o.st.leavesQty
      = simulateFillLevels o.st.leavesQty swept := by
    simp only [OrderBook.simulateMarketFill, hswept]
  have hfillsum := sumQty_simulateFillLevels swept o.st.leavesQty (le_of_lt hpos) hlv
  have hfillpos := simulateFillLevels_pos swept o.st.leavesQty hlv
  constructor
  · intro hlt
    have hmin : min o.st.leavesQty (sumQty swept) = sumQty swept :=
      min_eq_right (le_of_lt hlt)
    simp only [matchMarket, hfills]
    rw [if_pos]
    · simp [fireCancel]
    · constructor
      · exact hfok
      · show sumQty _ < _
        rw [hfillsum, hmin]
        exact hlt
  · intro hge
    have hmin : min o.st.leavesQty (sumQty swept) = o.st.leavesQty :=
      min_eq_left hge
    have hnot : ¬ (o.tif = .fok ∧
        sumQty (simulateFillLevels o.st.leavesQty swept) < o.st.leavesQty) := by
      rw [hfillsum, hmin]
      simp
    have hfold := foldl_marketFillStep slip
      (simulateFillLevels o.st.leavesQty swept) o []
      hfillpos (by rw [hfillsum, hmin]) (Or.inl hacc) hinv
    simp only [matchMarket, hfills]
    rw [if_neg (by exact_mod_cast hnot)]
    have hfoldeq :
        (List.foldl
          (fun (acc : EOrder × List EngineEvent) pf =>
            if acc.1.st.leavesQty = 0 then acc
            else
              let fillQty := min pf.2 acc.1.st.leavesQty
              let pxSlipped := slip pf.1 acc.1.side
              let r1 := fireFill acc.1 pf.1 fillQty
              (r1.1, acc.2 ++ r1.2))
          (o, []) (simulateFillLevels o.st.leavesQty swept))
        = (List.foldl (marketFillStep slip) (o, [])
            (simulateFillLevels o.st.leavesQty swept)) := rfl
    rw [hfoldeq]
    have hleaves0 : (List.foldl (marketFillStep slip) (o, [])
        (simulateFillLevels o.st.leavesQty swept)).1.st.leavesQty = 0 := by
      rw [hfold.2.1, hfillsum, hmin]; ring
    rw [if_neg]
    · refine ⟨?_, hleaves0, ?_⟩
      · rw [hfold.1]
        simp only [List.nil_append, fillQtySum, List.map_map]
        have hmap : ∀ (l : List (ℚ × ℚ)),
            (List.map ((fun e => match e with | .fillEv _ _ q => q | _ => 0)
              ∘ fun pf => EngineEvent.fillEv o.oid pf.1 pf.2) l).sum = sumQty l := by
          intro l
          induction l with
          | nil => simp [sumQty]
          | cons f l ihl => simp [sumQty_cons, ihl, sumQty]
        rw [hmap, hfillsum, hmin]
      · rw [hfold.1]
        simp only [List.nil_append, hasCancel, List.any_map]
        simp only [Function.comp, List.any_eq_false]
        intro e he
        simp only [List.mem_map] at he
        obtain ⟨pf, hpf, hfe⟩ := he
        rw [← hfe]
        simp
    · intro hcontra
      exact absurd hleaves0 hcontra.2

/-- Witness for fok_market_order: scenario S4, asks of 5 at 101 and 3 at 102,
a FOK market BUY for 10 is canceled with no fill. -/
theorem fok_market_order_witness :
    (matchMarket ⟨[], [(101, 5), (102, 3)]⟩ (fun p _ => p)
      { oid := 7, side := .buy, otype := .market, tif := .fok, price := none,
        triggerPrice := none, postOnly := false,
        st := { quantity := 10, filledQty := 0, leavesQty := 10, avgPx := 0,
                status := .accepted } }).2
      = [.cancelEv 7] := by
  have h := fok_market_order ⟨[], [(101, 5), (102, 3)]⟩ (fun p _ => p)
    { oid := 7, side := .buy, otype := .market, tif := .fok, price := none,
      triggerPrice := none, postOnly := false,
      st := { quantity := 10, filledQty := 0, leavesQty := 10, avgPx := 0,
              status := .accepted } }
    rfl rfl ⟨by norm_num, by norm_num⟩ (by norm_num)
    (by
      intro f hf
      simp [OrderBook.asksView] at hf
      rcases hf with rfl | rfl <;> norm_num)
  exact h.1 (by norm_num [sumQty, OrderBook.asksView])

/-- C8 (code bug evidence): the market sweep's output does not depend on the
slippage model at all, and on a concrete book a BUY market fill is emitted at
the raw level price 100 even though the slippage model maps 100 to 100.01.
In the source, match-market binds the slippage-adjusted price and then fires
the fill with the unadjusted one. -/
theorem market_fill_ignores_slippage :
    (∀ (book : OrderBook) (slip slip' : ℚ → OrderSide → ℚ) (o : EOrder),
        matchMarket book slip o = matchMarket book slip' o)
    ∧ (matchMarket ⟨[], [(100, 10)]⟩ (applySlippageTicks (1/100) 1)
        { oid := 1, side := .buy, otype := .market, tif := .gtc, price := none,
          triggerPrice := none, postOnly := false,
          st := { quantity := 5, filledQty := 0, leavesQty := 5, avgPx := 0,
                  status := .accepted } }).2
      = [.fillEv 1 100 5]
    ∧ applySlippageTicks (1/100) 1 100 .buy = 100 + 1/100
    ∧ (100 : ℚ) ≠ 100 + 1/100 := by
  refine ⟨?_, ?_, by norm_num [applySlippageTicks], by norm_num⟩
  · intro book slip slip' o
    rfl
  · norm_num [matchMarket, OrderBook.simulateMarketFill, OrderBook.asksView,
      simulateFillLevels, fireFill, fireCancel, EOrder.isOpen, EOrder.isClosed,
      applyEvent, eventTarget, ORDER_STATUS_TRANSITIONS]

/-- The book is untouched by order admission: every branch of process-order
reads the levels and writes only the resting, stop and trailing queues. -/
theorem processOrder_book_eq (slip : ℚ → OrderSide → ℚ) (st : EngineState)
    (o : EOrder) :
    (processOrder slip st o).1.book = st.book := by
  cases h : o.otype with
  | market => simp only [processOrder, h]
  | limit =>
      simp only [processOrder, h, matchLimitOrRest]
      cases hp : o.price with
      | none => rfl
      | some lp => dsimp only; split_ifs <;> rfl
  | stopMarket => simp only [processOrder, h]; split_ifs <;> rfl
  | stopLimit =>
      simp only [processOrder, h, convertStopLimit]; split_ifs <;> rfl
  | marketIfTouched => simp only [processOrder, h]; split_ifs <;> rfl
  | limitIfTouched => simp only [processOrder, h]; split_ifs <;> rfl
  | trailingStopMarket => simp only [processOrder, h]
  | trailingStopLimit => simp only [processOrder, h]

/-- C10: no matching operation consumes book liquidity. After any
process-order call the book equals the book before it; two consecutive
incoming orders therefore both see the original liquidity; and the bar
traversal's per-price processing leaves the book unchanged as well. -/
theorem matching_preserves_book (slip : ℚ → OrderSide → ℚ) (st : EngineState)
    (o : EOrder) :
    (processOrder slip st o).1.book = st.book
    ∧ (∀ o2 : EOrder,
        (processOrder slip (processOrder slip st o).1 o2).1.book = st.book)
    ∧ (∀ (price : ℚ) (f1 f2 f3 : Bool),
        (processAtPrice st price f1 f2 f3).1.book = st.book) := by
  refine ⟨processOrder_book_eq slip st o, ?_, ?_⟩
  · intro o2
    rw [processOrder_book_eq slip _ o2, processOrder_book_eq slip st o]
  · intro price f1 f2 f3
    simp only [processAtPrice]

/-- C3: a stop-market order that fires during a bar-traversal price visit is
filled at max(trigger_price, visited_price) when it is a BUY and at
min(trigger_price, visited_price) when it is a SELL: the per-price processing
emits exactly the OrderTriggered event followed by the OrderFilled event at
that conservative price for the order's full leaves quantity. -/
theorem stop_market_fill_price (book : OrderBook) (o : EOrder)
    (price tp : ℚ) (trailing : List EOrder) (lp : Option ℚ)
    (isOpenVisit isHighVisit isLowVisit : Bool)
    (hty : o.otype = .stopMarket)
    (htp : o.triggerPrice = some tp)
    (hacc : o.st.status = .accepted)
    (hpos : 0 < o.st.leavesQty)
    (htrig : isStopTriggered o (some price) = true) :
    (processAtPrice ⟨book, [], [o], trailing, lp⟩ price
        isOpenVisit isHighVisit isLowVisit).2
      = [.triggerEv o.oid,
         .fillEv o.oid (if o.side = .buy then max tp price else min tp price)
           o.st.leavesQty] := by
  have hS1 : (applyEvent o.st .triggeredEv).1 = { o.st with status := .triggered } := by
    simp [applyEvent, eventTarget, hacc, ORDER_STATUS_TRANSITIONS]
  simp only [processAtPrice, List.foldl_nil, List.foldl_cons, List.filter,
    List.append_nil, List.nil_append]
  simp [hty, htp, hacc, htrig, hS1, EOrder.isOpen, EOrder.isClosed,
    fireTriggeredStop, fireTriggered, fireFill, isMitTriggered,
    checkRestingAtPrice, min_self, hpos.ne']

/-- Witness for stop_market_fill_price: scenario S2, a SELL stop with trigger
96 firing on the bar low of 94 fills at min(96, 94) = 94. -/
theorem stop_market_fill_price_witness :
    (processAtPrice ⟨⟨[], []⟩, [],
        [{ oid := 3, side := .sell, otype := .stopMarket, tif := .gtc,
           price := none, triggerPrice := some 96, postOnly := false,
           st := { quantity := 10, filledQty := 0, leavesQty := 10, avgPx := 0,
                   status := .accepted } }], [], some 102⟩ 94 false false true).2
      = [.triggerEv 3, .fillEv 3 94 10] := by
  have h := stop_market_fill_price ⟨[], []⟩
    { oid := 3, side := .sell, otype := .stopMarket, tif := .gtc,
      price := none, triggerPrice := some 96, postOnly := false,
      st := { quantity := 10, filledQty := 0, leavesQty := 10, avgPx := 0,
              status := .accepted } }
    94 96 [] (some 102) false false true rfl rfl rfl (by norm_num)
    (by
      dsimp only [isStopTriggered]
      rw [if_neg (by decide)]
      norm_num)
  rw [h]
  dsimp only
  rw [if_neg (by decide)]
  norm_num [min_def]

/-- The activation block never changes the side, trigger or extreme price. -/
theorem activateStep_fields (o : TrailingStop) (mp : ℚ) :
    (activateStep o mp).side = o.side
    ∧ (activateStep o mp).triggerPrice = o.triggerPrice
    ∧ (activateStep o mp).extremePrice = o.extremePrice := by
  unfold activateStep
  split
  · exact ⟨rfl, rfl, rfl⟩
  · rcases ho : o.triggerPrice with _ | t0
    · simp [ho]
    · simp only [ho]
      split <;> simp [ho]

/-- An already activated order passes through the activation block unchanged. -/
theorem activateStep_activated (o : TrailingStop) (mp : ℚ)
    (h : o.isActivated = true) : activateStep o mp = o := by
  unfold activateStep
  rw [if_pos h]

/-- The SELL ratchet never lowers an existing trigger. -/
theorem sellRatchet_trigger_mono (o : TrailingStop) (mp offset t : ℚ)
    (h : o.triggerPrice = some t) :
    ∃ t', (sellRatchet o mp offset).triggerPrice = some t' ∧ t ≤ t' := by
  unfold sellRatchet
  split
  · dsimp only
    have hE : ({ o with extremePrice := some mp } : TrailingStop).triggerPrice
        = some t := h
    simp only [h]
    split
    · rename_i hlt
      exact ⟨mp - offset, rfl, le_of_lt hlt⟩
    · exact ⟨t, rfl, le_refl t⟩
  · exact ⟨t, h, le_refl t⟩

/-- The BUY ratchet never raises an existing trigger. -/
theorem buyRatchet_trigger_mono (o : TrailingStop) (mp offset t : ℚ)
    (h : o.triggerPrice = some t) :
    ∃ t', (buyRatchet o mp offset).triggerPrice = some t' ∧ t' ≤ t := by
  unfold buyRatchet
  split
  · dsimp only
    have hE : ({ o with extremePrice := some mp } : TrailingStop).triggerPrice
        = some t := h
    simp only [h]
    split
    · rename_i hlt
      exact ⟨mp + offset, rfl, le_of_lt hlt⟩
    · exact ⟨t, rfl, le_refl t⟩
  · exact ⟨t, h, le_refl t⟩

/-- The SELL ratchet never changes the side. -/
theorem sellRatchet_side (o : TrailingStop) (mp offset : ℚ) :
    (sellRatchet o mp offset).side = o.side := by
  rcases ho : o.triggerPrice with _ | t <;>
    simp only [sellRatchet, ho] <;>
    split_ifs <;>
    rfl

/-- The BUY ratchet never changes the side. -/
theorem buyRatchet_side (o : TrailingStop) (mp offset : ℚ) :
    (buyRatchet o mp offset).side = o.side := by
  rcases ho : o.triggerPrice with _ | t <;>
    simp only [buyRatchet, ho] <;>
    split_ifs <;>
    rfl

/-- One update never changes the side of a trailing stop. -/
theorem updateTrigger_side (o : TrailingStop) (mp : ℚ) :
    ((updateTrigger o mp).1).side = o.side := by
  have hs := (activateStep_fields o mp).1
  unfold updateTrigger
  dsimp only
  split
  · exact hs
  · split
    · rcases hm : (sellRatchet (activateStep o mp) mp
          (computeOffset (activateStep o mp) mp)).triggerPrice with _ | t2
      · simp only [hm]
        rw [sellRatchet_side]
        exact hs
      · simp only [hm]
        split <;>
          (show (sellRatchet (activateStep o mp) mp
              (computeOffset (activateStep o mp) mp)).side = o.side
           rw [sellRatchet_side]
           exact hs)
    · rcases hm : (buyRatchet (activateStep o mp) mp
          (computeOffset (activateStep o mp) mp)).triggerPrice with _ | t2
      · simp only [hm]
        rw [buyRatchet_side]
        exact hs
      · simp only [hm]
        split <;>
          (show (buyRatchet (activateStep o mp) mp
              (computeOffset (activateStep o mp) mp)).side = o.side
           rw [buyRatchet_side]
           exact hs)

/-- One update never lowers the trigger of a SELL trailing stop. -/
theorem updateTrigger_sell_mono (o : TrailingStop) (mp t : ℚ)
    (hs : o.side = .sell) (h : o.triggerPrice = some t) :
    ∃ t', ((updateTrigger o mp).1).triggerPrice = some t' ∧ t ≤ t' := by
  obtain ⟨hside, htrig, _⟩ := activateStep_fields o mp
  unfold updateTrigger
  dsimp only
  split
  · exact ⟨t, htrig.trans h, le_refl t⟩
  · rw [if_pos (by rw [hside, hs])]
    obtain ⟨t', ht', hle⟩ := sellRatchet_trigger_mono (activateStep o mp) mp
      (computeOffset (activateStep o mp) mp) t (htrig.trans h)
    rcases hm : (sellRatchet (activateStep o mp) mp
        (computeOffset (activateStep o mp) mp)).triggerPrice with _ | t2
    · rw [hm] at ht'; cases ht'
    · rw [hm] at ht'
      injection ht' with ht2
      subst ht2
      simp only [hm]
      split
      · exact ⟨t2, rfl, hle⟩
      · exact ⟨t2, hm, hle⟩

/-- One update never raises the trigger of a BUY trailing stop. -/
theorem updateTrigger_buy_mono (o : TrailingStop) (mp t : ℚ)
    (hs : o.side = .buy) (h : o.triggerPrice = some t) :
    ∃ t', ((updateTrigger o mp).1).triggerPrice = some t' ∧ t' ≤ t := by
  obtain ⟨hside, htrig, _⟩ := activateStep_fields o mp
  unfold updateTrigger
  dsimp only
  split
  · exact ⟨t, htrig.trans h, le_refl t⟩
  · rw [if_neg (by rw [hside, hs]; intro hc; cases hc)]
    obtain ⟨t', ht', hle⟩ := buyRatchet_trigger_mono (activateStep o mp) mp
      (computeOffset (activateStep o mp) mp) t (htrig.trans h)
    rcases hm : (buyRatchet (activateStep o mp) mp
        (computeOffset (activateStep o mp) mp)).triggerPrice with _ | t2
    · rw [hm] at ht'; cases ht'
    · rw [hm] at ht'
      injection ht' with ht2
      subst ht2
      simp only [hm]
      split
      · exact ⟨t2, rfl, hle⟩
      · exact ⟨t2, hm, hle⟩

/-- C7: across every sequence of market updates the trigger of a SELL
trailing stop is non-decreasing and that of a BUY trailing stop is
non-increasing; an activated SELL trailing stop fires exactly when the market
price is at or below its (freshly ratcheted) trigger; on firing, a trailing
stop market order fills at the trigger price; and the S6 sequence of closes
100, 105, 110, 107, 106, 104 under offset 5 produces the trigger trace
95, 100, 105, 105, 105, 105, firing at 104 with fill price 105. -/
theorem trailing_stop_ratchet_spec :
    (∀ (o : TrailingStop) (ps : List ℚ) (t : ℚ),
        o.side = .sell → o.triggerPrice = some t →
        ∃ t', (updateTriggerSeq o ps).triggerPrice = some t' ∧ t ≤ t')
    ∧ (∀ (o : TrailingStop) (ps : List ℚ) (t : ℚ),
        o.side = .buy → o.triggerPrice = some t →
        ∃ t', (updateTriggerSeq o ps).triggerPrice = some t' ∧ t' ≤ t)
    ∧ (∀ (o : TrailingStop) (mp : ℚ),
        o.isActivated = true → o.side = .sell →
        ((updateTrigger o mp).2 = true ↔
          ∃ t, (updateTrigger o mp).1.triggerPrice = some t ∧ mp ≤ t))
    ∧ (∀ (o : TrailingStop) (mp t : ℚ), o.triggerPrice = some t →
        trailingStopFillPx o mp = t)
    ∧ triggerTrace s6TrailingStop [100, 105, 110, 107, 106, 104]
        = [(some 95, false), (some 100, false), (some 105, false),
           (some 105, false), (some 105, false), (some 105, true)]
    ∧ trailingStopFillPx
        (updateTriggerSeq s6TrailingStop [100, 105, 110, 107, 106, 104]) 104
      = 105 := by
  refine ⟨?_, ?_, ?_, ?_, ?_, ?_⟩
  · intro o ps
    induction ps generalizing o with
    | nil => intro t hs h; exact ⟨t, h, le_refl t⟩
    | cons mp ps ih =>
        intro t hs h
        obtain ⟨t1, ht1, hle1⟩ := updateTrigger_sell_mono o mp t hs h
        obtain ⟨t2, ht2, hle2⟩ := ih ((updateTrigger o mp).1) t1
          (by rw [updateTrigger_side, hs]) ht1
        exact ⟨t2, ht2, le_trans hle1 hle2⟩
  · intro o ps
    induction ps generalizing o with
    | nil => intro t hs h; exact ⟨t, h, le_refl t⟩
    | cons mp ps ih =>
        intro t hs h
        obtain ⟨t1, ht1, hle1⟩ := updateTrigger_buy_mono o mp t hs h
        obtain ⟨t2, ht2, hle2⟩ := ih ((updateTrigger o mp).1) t1
          (by rw [updateTrigger_side, hs]) ht1
        exact ⟨t2, ht2, le_trans hle2 hle1⟩
  · intro o mp hact hs
    unfold updateTrigger
    rw [activateStep_activated o mp hact]
    dsimp only
    rw [if_neg (by rw [hact]; intro hc; cases hc), if_pos hs]
    rcases hm : (sellRatchet o mp (computeOffset o mp)).triggerPrice with _ | t
    · simp [hm]
    · simp only [hm]
      split
      · rename_i hle
        simp only [true_iff]
        exact ⟨t, rfl, hle⟩
      · rename_i hgt
        constructor
        · intro hc; cases hc
        · rintro ⟨t2, ht2, hle2⟩
          simp only [hm, Option.some.injEq] at ht2
          subst ht2
          exact absurd hle2 hgt
  · intro o mp t h
    simp [trailingStopFillPx, h]
  · norm_num [triggerTrace, updateTrigger, activateStep, sellRatchet,
      computeOffset, s6TrailingStop]
  · norm_num [updateTriggerSeq, updateTrigger, activateStep, sellRatchet,
      computeOffset, s6TrailingStop, trailingStopFillPx]

/-- Witness for trailing_stop_ratchet_spec at concrete trailing stops. -/
theorem trailing_stop_ratchet_spec_witness :
    (∃ t', (updateTriggerSeq ⟨.sell, 5, .price, some 95, some 100, true, false⟩
        [105, 110]).triggerPrice = some t' ∧ 95 ≤ t')
    ∧ ((updateTrigger ⟨.sell, 5, .price, some 105, some 110, true, false⟩
            104).2 = true ↔
        ∃ t, (updateTrigger ⟨.sell, 5, .price, some 105, some 110, true, false⟩
            104).1.triggerPrice = some t ∧ 104 ≤ t)
    ∧ (∃ t', (updateTriggerSeq ⟨.buy, 5, .price, some 105, some 100, true, false⟩
        [95]).triggerPrice = some t' ∧ t' ≤ 105)
    ∧ trailingStopFillPx ⟨.sell, 5, .price, some 105, some 110, true, false⟩
        104 = 105 :=
  ⟨trailing_stop_ratchet_spec.1 _ [105, 110] 95 rfl rfl,
   trailing_stop_ratchet_spec.2.2.1 _ 104 rfl rfl,
   trailing_stop_ratchet_spec.2.1 _ [95] 105 rfl rfl,
   trailing_stop_ratchet_spec.2.2.2.1 _ 104 105 rfl⟩

/-- C2: Order.apply moves the status exactly along the transition table, an
event whose requested target is not in the table raises and leaves the status
unchanged, the code table equals the table written in section 4.3 of the
specification, and the terminal statuses Denied, Rejected, Canceled, Expired
and Filled admit no outgoing transition. -/
theorem order_fsm_transition_table :
    (∀ (s : OrderState) (e : OrderEvent),
        (applyEvent s e).2
          = decide (eventTarget s e ∉ ORDER_STATUS_TRANSITIONS s.status)
        ∧ (applyEvent s e).1.status
          = (if eventTarget s e ∈ ORDER_STATUS_TRANSITIONS s.status
             then eventTarget s e else s.status))
    ∧ (∀ st : OrderStatus,
        ORDER_STATUS_TRANSITIONS st = specSection43Transitions st)
    ∧ ORDER_STATUS_TRANSITIONS .denied = []
    ∧ ORDER_STATUS_TRANSITIONS .rejected = []
    ∧ ORDER_STATUS_TRANSITIONS .canceled = []
    ∧ ORDER_STATUS_TRANSITIONS .expired = []
    ∧ ORDER_STATUS_TRANSITIONS .filled = [] := by
  refine ⟨?_, by intro st; cases st <;> rfl, rfl, rfl, rfl, rfl, rfl⟩
  intro s e
  cases e with
  | initializedEv => simp only [applyEvent, eventTarget]; split <;> simp_all
  | deniedEv => simp only [applyEvent, eventTarget]; split <;> simp_all
  | submittedEv => simp only [applyEvent, eventTarget]; split <;> simp_all
  | acceptedEv => simp only [applyEvent, eventTarget]; split <;> simp_all
  | rejectedEv => simp only [applyEvent, eventTarget]; split <;> simp_all
  | canceledEv => simp only [applyEvent, eventTarget]; split <;> simp_all
  | expiredEv => simp only [applyEvent, eventTarget]; split <;> simp_all
  | triggeredEv => simp only [applyEvent, eventTarget]; split <;> simp_all
  | pendingUpdateEv => simp only [applyEvent, eventTarget]; split <;> simp_all
  | pendingCancelEv => simp only [applyEvent, eventTarget]; split <;> simp_all
  | updatedEv q? =>
      cases q? with
      | none => simp only [applyEvent, eventTarget]; split <;> simp_all
      | some q => simp only [applyEvent, eventTarget]; split <;> simp_all
  | filledEv lastQty lastPx =>
      simp only [applyEvent, eventTarget]
      split <;> split <;> simp_all

/-- A SELL order is not a BUY order, stated as a rewrite rule for concrete
evaluation. -/
theorem side_sell_ne_buy : (OrderSide.sell = OrderSide.buy) ↔ False := by
  constructor
  · intro h; cases h
  · intro h; cases h

/-- A BUY order is not a SELL order, stated as a rewrite rule for concrete
evaluation. -/
theorem side_buy_ne_sell : (OrderSide.buy = OrderSide.sell) ↔ False := by
  constructor
  · intro h; cases h
  · intro h; cases h

/-- C5 (amended): on a cash-account balance with nothing locked, a BUY fill
whose cost does not exceed the total changes the total by exactly
-(qty*px + commission), and a SELL fill with commission at most qty*px
changes the total by exactly +(qty*px - commission); in both cases
free + locked = total holds after the update. Without these provisos the
exact delta fails: the update debits the free balance and clamps the new
total at zero. -/
theorem cash_account_fill_update (total qty px comm : ℚ) (htot : 0 ≤ total) :
    (qty * px + comm ≤ total →
      (updateAccountOnFill (updateBalance total 0) .buy qty px comm).total
        = total - (qty * px + comm)
      ∧ (updateAccountOnFill (updateBalance total 0) .buy qty px comm).free
          + (updateAccountOnFill (updateBalance total 0) .buy qty px comm).locked
        = (updateAccountOnFill (updateBalance total 0) .buy qty px comm).total)
    ∧ (comm ≤ qty * px →
      (updateAccountOnFill (updateBalance total 0) .sell qty px comm).total
        = total + (qty * px - comm)
      ∧ (updateAccountOnFill (updateBalance total 0) .sell qty px comm).free
          + (updateAccountOnFill (updateBalance total 0) .sell qty px comm).locked
        = (updateAccountOnFill (updateBalance total 0) .sell qty px comm).total) := by
  have hfree : max (total - 0) 0 = total := by rw [sub_zero, max_eq_left htot]
  constructor
  · intro hcost
    have e1 : updateAccountOnFill (updateBalance total 0) .buy qty px comm
        = updateBalance (total - (qty * px + comm)) 0 := by
      simp only [updateAccountOnFill, updateBalance]
      rw [if_pos trivial]
      try dsimp only
      rw [hfree, max_eq_left (by linarith : (0:ℚ) ≤ total - (qty * px + comm))]
    rw [e1]
    refine ⟨rfl, ?_⟩
    show max (total - (qty * px + comm) - 0) 0 + 0 = total - (qty * px + comm)
    rw [sub_zero, add_zero, max_eq_left (by linarith)]
  · intro hcomm
    have e1 : updateAccountOnFill (updateBalance total 0) .sell qty px comm
        = updateBalance (total + (qty * px - comm)) 0 := by
      simp only [updateAccountOnFill, updateBalance]
      rw [if_neg (by intro hc; cases hc)]
      try dsimp only
      rw [hfree]
    rw [e1]
    refine ⟨rfl, ?_⟩
    show max (total + (qty * px - comm) - 0) 0 + 0 = total + (qty * px - comm)
    rw [sub_zero, add_zero, max_eq_left (by linarith)]

/-- Witness for cash_account_fill_update: scenario S1, a cash account of
100,000 after a BUY of 10 at 100 holds 99,000; and from 99,000, the S2 SELL of
10 at 94 brings it to 99,940. -/
theorem cash_account_fill_update_witness :
    (updateAccountOnFill (updateBalance 100000 0) .buy 10 100 0).total = 99000
    ∧ (updateAccountOnFill (updateBalance 99000 0) .sell 10 94 0).total
      = 99940 := by
  have h1 := cash_account_fill_update 100000 10 100 0 (by norm_num)
  have h2 := cash_account_fill_update 99000 10 94 0 (by norm_num)
  constructor
  · rw [(h1.1 (by norm_num)).1]; norm_num
  · rw [(h2.2 (by norm_num)).1]; norm_num

/-- C5 counterexample: with free = total = 100 and nothing locked, a BUY fill
of qty 2 at price 100 with zero commission changes the total by -100, not by
-(qty*px + commission) = -200, because the code clamps the new total at zero.
And starting from total 100 with 50 locked, a BUY fill of cost 60 leaves a
balance violating free + locked = total. -/
theorem cash_account_fill_update_cex :
    ((updateAccountOnFill (updateBalance 100 0) .buy 2 100 0).total
        - (updateBalance 100 0).total = -100
     ∧ (-100 : ℚ) ≠ -(2 * 100 + 0))
    ∧ (updateAccountOnFill (updateBalance 100 50) .buy 1 60 0).free
        + (updateAccountOnFill (updateBalance 100 50) .buy 1 60 0).locked
      ≠ (updateAccountOnFill (updateBalance 100 50) .buy 1 60 0).total := by
  norm_num [updateAccountOnFill, updateBalance]

/-- Changing only the accumulated commissions leaves avg_px_open unchanged. -/
theorem avgPxOpen_commissions (p : PositionState) (c : ℚ) :
    avgPxOpen { p with commissions := c } = avgPxOpen p := rfl

/-- C6 (amended): a fill opposite to the position's signed quantity realizes
close_qty * (px - avg_px_open) * multiplier on a long (sign-mirrored on a
short) with close_qty = min(qty, |signed|), minus the fill's commission; and
an overshooting fill (qty exceeding |signed|) opens the remainder in the new
direction with a VWAP open price equal to the cumulative cost ratio of that
side, which equals the overflow fill price exactly when the new direction had
no prior fills. -/
theorem position_fill_realized_pnl (p : PositionState) (qty px comm : ℚ) :
    (0 < p.signedQty →
      (applyPositionFill p .sell qty px comm).realizedPnl
        = p.realizedPnl
          + min qty p.signedQty * (px - avgPxOpen p) * p.multiplier - comm)
    ∧ (p.signedQty < 0 →
      (applyPositionFill p .buy qty px comm).realizedPnl
        = p.realizedPnl
          + min qty (abs p.signedQty) * (avgPxOpen p - px) * p.multiplier
          - comm)
    ∧ (0 < p.signedQty → p.signedQty < qty → 0 < qty → p.sellQty = 0 →
        p.sellCost = 0 →
      avgPxOpen (applyPositionFill p .sell qty px comm) = px)
    ∧ (p.signedQty < 0 → abs p.signedQty < qty → 0 < qty → p.buyQty = 0 →
        p.buyCost = 0 →
      avgPxOpen (applyPositionFill p .buy qty px comm) = px) := by
  refine ⟨?_, ?_, ?_, ?_⟩
  · intro hpos
    simp only [applyPositionFill]
    rw [if_neg (by intro hc; cases hc)]
    try dsimp only
    rw [if_pos (show (0:ℚ) < p.signedQty from hpos)]
    dsimp only
    rw [avgPxOpen_commissions]
  · intro hneg
    simp only [applyPositionFill]
    rw [if_pos trivial]
    try dsimp only
    rw [if_pos (show p.signedQty < 0 from hneg)]
    dsimp only
    rw [avgPxOpen_commissions]
  · intro hpos hover hq hsq hsc
    have hsg : (applyPositionFill p .sell qty px comm).signedQty
        = p.signedQty - qty := by
      simp only [applyPositionFill]
      rw [if_neg (by intro hc; cases hc)]
      try dsimp only
      split <;> rfl
    have hsq2 : (applyPositionFill p .sell qty px comm).sellQty
        = p.sellQty + qty := by
      simp only [applyPositionFill]
      rw [if_neg (by intro hc; cases hc)]
      try dsimp only
      split <;> rfl
    have hsc2 : (applyPositionFill p .sell qty px comm).sellCost
        = p.sellCost + qty * px := by
      simp only [applyPositionFill]
      rw [if_neg (by intro hc; cases hc)]
      try dsimp only
      split <;> rfl
    rw [avgPxOpen, hsg, hsq2, hsc2, hsq, hsc, zero_add, zero_add]
    rw [if_neg (by linarith), if_pos (by linarith),
      if_pos (ne_of_gt hq)]
    rw [mul_comm qty px, mul_div_assoc, div_self (ne_of_gt hq), mul_one]
  · intro hneg hover hq hbq hbc
    rw [abs_of_neg hneg] at hover
    have hsg : (applyPositionFill p .buy qty px comm).signedQty
        = p.signedQty + qty := by
      simp only [applyPositionFill]
      rw [if_pos trivial]
      try dsimp only
      split <;> rfl
    have hbq2 : (applyPositionFill p .buy qty px comm).buyQty
        = p.buyQty + qty := by
      simp only [applyPositionFill]
      rw [if_pos trivial]
      try dsimp only
      split <;> rfl
    have hbc2 : (applyPositionFill p .buy qty px comm).buyCost
        = p.buyCost + qty * px := by
      simp only [applyPositionFill]
      rw [if_pos trivial]
      try dsimp only
      split <;> rfl
    rw [avgPxOpen, hsg, hbq2, hbc2, hbq, hbc, zero_add, zero_add]
    rw [if_pos (by linarith), if_pos (ne_of_gt hq)]
    rw [mul_comm qty px, mul_div_assoc, div_self (ne_of_gt hq), mul_one]

/-- Witness for position_fill_realized_pnl: a long of 10 at 100 closed by a
SELL of 10 at 105 with no commission realizes 10 * (105 - 100) * 1 = 50. -/
theorem position_fill_realized_pnl_witness :
    (applyPositionFill
        (applyPositionFill (emptyPosition 1) .buy 10 100 0) .sell 10 105
        0).realizedPnl = 50 := by
  have h := (position_fill_realized_pnl
      (applyPositionFill (emptyPosition 1) .buy 10 100 0) 10 105 0).1
    (by norm_num [applyPositionFill, emptyPosition, side_sell_ne_buy,
      side_buy_ne_sell])
  rw [h]
  norm_num [applyPositionFill, emptyPosition, avgPxOpen, side_sell_ne_buy,
    side_buy_ne_sell]

/-- C6 counterexample: open long 10 at 100, flip with SELL 15 at 90 (short 5
at VWAP 90), then flip back with BUY 10 at 95: the fill overshoots the short
of 5, yet the new long leg's avg_px_open is the cumulative buy cost ratio
(1000 + 950) / 20 = 97.5, not the overflow fill price 95 the claim requires. -/
theorem position_fill_realized_pnl_cex :
    abs (applyPositionFill
        (applyPositionFill (emptyPosition 1) .buy 10 100 0)
        .sell 15 90 0).signedQty < 10
    ∧ avgPxOpen (applyPositionFill
        (applyPositionFill
          (applyPositionFill (emptyPosition 1) .buy 10 100 0)
          .sell 15 90 0)
        .buy 10 95 0) ≠ 95 := by
  norm_num [applyPositionFill, emptyPosition, avgPxOpen, side_sell_ne_buy,
    side_buy_ne_sell]

/-- Whether publish raises: exactly when some matching handler throws. -/
theorem publishRun_throws (subs : List Sub) :
    (publishRun subs).2 = subs.any (fun s => s.throws) := by
  induction subs with
  | nil => rfl
  | cons s rest ih =>
      simp only [publishRun, List.any_cons]
      split
      · rename_i h; rw [h]; rfl
      · rename_i h
        rw [Bool.not_eq_true] at h
        rw [h]
        simpa using ih

/-- C9 (amended): the message bus performs no exception isolation. A raising
handler is the last one invoked by publish: handlers subscribed after it do
not receive the message, publish reports the exception, and since no caller
of publish catches it, the event loop aborts after the event being processed,
leaving every later market event unprocessed; only when no handler throws are
all handlers invoked and all events processed. -/
theorem publish_no_isolation :
    (∀ subs : List Sub, (publishRun subs).2 = subs.any (fun s => s.throws))
    ∧ (∀ subs : List Sub, (publishRun subs).1
        = (subs.takeWhile (fun s => !s.throws)).map Sub.hid
          ++ ((subs.dropWhile (fun s => !s.throws)).head?.map Sub.hid).toList)
    ∧ (∀ (subs : List Sub) (e : ℕ) (es : List ℕ),
        subs.any (fun s => s.throws) = true →
        runLoop subs (e :: es) = ([e], true))
    ∧ (∀ (subs : List Sub) (es : List ℕ),
        subs.any (fun s => s.throws) = false →
        runLoop subs es = (es, false)) := by
  refine ⟨publishRun_throws, ?_, ?_, ?_⟩
  · intro subs
    induction subs with
    | nil => rfl
    | cons s rest ih =>
        simp only [publishRun]
        split
        · rename_i h
          simp [List.takeWhile_cons, List.dropWhile_cons, h]
        · rename_i h
          rw [Bool.not_eq_true] at h
          simp [List.takeWhile_cons, List.dropWhile_cons, h, ih]
  · intro subs e es hthrow
    simp only [runLoop, publishRun_throws, hthrow]
    rfl
  · intro subs es hok
    induction es with
    | nil => rfl
    | cons e es ih =>
        simp only [runLoop, publishRun_throws, hok]
        rw [ih]
        rfl

/-- Witness for publish_no_isolation at concrete handler lists and events. -/
theorem publish_no_isolation_witness :
    runLoop [⟨1, false⟩, ⟨2, false⟩] [10, 20] = ([10, 20], false)
    ∧ runLoop [⟨1, true⟩, ⟨2, false⟩] [10, 20] = ([10], true) :=
  ⟨publish_no_isolation.2.2.2 [⟨1, false⟩, ⟨2, false⟩] [10, 20] rfl,
   publish_no_isolation.2.2.1 [⟨1, true⟩, ⟨2, false⟩] 10 [20] rfl⟩

/-- C9 counterexample: publishing to the handlers 1 (which raises) and 2
invokes only handler 1: handler 2 never receives the message, and the event
loop aborts after the first of two events. -/
theorem publish_no_isolation_cex :
    (publishRun [⟨1, true⟩, ⟨2, false⟩]).1 = [1]
    ∧ (2 : ℕ) ∉ (publishRun [⟨1, true⟩, ⟨2, false⟩]).1
    ∧ runLoop [⟨1, true⟩, ⟨2, false⟩] [10, 20] = ([10], true) := by
  decide

end Backtest

